import Mathlib

/-!
Verification development for the moltbotartboard pixel-canvas server.

The definitions below are a shallow embedding of the TypeScript sources:

* `server/src/types.ts`        — canvas dimensions;
* `server/src/canvas.ts` (the revision with incremental `colorCounts`,
  the memoized `getState`, and the debounced Redis save)
  — `Pixel`, `PixelPlacement`, `createEmptyCanvas`, `getPixel`, `setPixel`
  (its in-memory part `setPixelMem` and the full fallible `setPixel`),
  `getState`, `getRegion`, `getRecentPlacements`, `scheduleRedisSave`,
  and the debounce timer callback `fireRedisSave`;
* the earlier `canvas.ts` revision that still carries `reset()`
  — `LegacyCanvas`, `legacyReset`;
* `server/src/services/archive.ts` (the revision with the Postgres → S3 →
  local-file chain) — `saveCanvasArchive`, `nextMidnightUtc`,
  `rearmAfterSnapshot`, `schedAfter`.

JavaScript `Record<string, number>` objects (the `colorCounts` map) are
embedded as association lists with JS object semantics: assignment to an
existing key replaces it in place, assignment to a fresh key appends, and
`delete` removes the entry.  Machine integers are embedded as `Int`/`Nat`
(pixel counts and timestamps stay far below any overflow boundary in the
source, which uses doubles).  Fallible code returns `Except`.
-/

set_option maxHeartbeats 1000000

/-- Constant `CANVAS_WIDTH` from `types.ts`. -/
def CANVAS_WIDTH : Nat := 1300

/-- Constant `CANVAS_HEIGHT` from `types.ts`. -/
def CANVAS_HEIGHT : Nat := 900

/-- One grid cell: `{ color, botId, placedAt }` from `canvas.ts`. -/
structure Pixel where
  color : String
  botId : Option String
  placedAt : Option Nat
deriving DecidableEq, Repr, Inhabited

/-- Record `PixelPlacement` from `types.ts`: x, y, color, botId, timestamp. -/
structure PixelPlacement where
  x : Int
  y : Int
  color : String
  botId : String
  timestamp : Nat
deriving DecidableEq, Repr

/-! ### JS object (`Record<string, number>`) operations, for `colorCounts` -/

/-- Property lookup `m[k]`, `none` when the key is absent. -/
def recGet : List (String × Nat) → String → Option Nat
  | [], _ => none
  | p :: ps, k => if p.1 = k then some p.2 else recGet ps k

/-- Lookup with a default, modelling `m[k] || d` on a zero-free record. -/
def recGetD (m : List (String × Nat)) (k : String) (d : Nat) : Nat :=
  (recGet m k).getD d

/-- Property assignment `m[k] = v`: replace in place, or append when fresh. -/
def recSet : List (String × Nat) → String → Nat → List (String × Nat)
  | [], k, v => [(k, v)]
  | p :: ps, k, v => if p.1 = k then (k, v) :: ps else p :: recSet ps k v

/-- Property removal `delete m[k]`. -/
def recDel : List (String × Nat) → String → List (String × Nat)
  | [], _ => []
  | p :: ps, k => if p.1 = k then recDel ps k else p :: recDel ps k

/-- Sum of the record values, `sum(Object.values(m))`. -/
def recSumValues (m : List (String × Nat)) : Nat :=
  (m.map Prod.snd).sum

/-- A record never holds the same key twice (JS object invariant). -/
def recKeysNodup (m : List (String × Nat)) : Prop :=
  (m.map Prod.fst).Nodup

/-- The `colorCounts` update inside `Canvas.setPixel`:
```
this.colorCounts[oldColor] = (this.colorCounts[oldColor] || 1) - 1;
if (this.colorCounts[oldColor] <= 0) delete this.colorCounts[oldColor];
this.colorCounts[color] = (this.colorCounts[color] || 0) + 1;
``` -/
def bumpCounts (cc : List (String × Nat)) (oldC newC : String) :
    List (String × Nat) :=
  let v := recGetD cc oldC 0
  let n := (if v = 0 then 1 else v) - 1
  let cc1 := recSet cc oldC n
  let cc2 := if n = 0 then recDel cc1 oldC else cc1
  recSet cc2 newC (recGetD cc2 newC 0 + 1)

/-! ### Grid operations -/

/-- Method `Canvas.createEmptyCanvas()`: every cell gets the background
color `white`, no owner and no timestamp. -/
def createEmptyCanvas : List (List Pixel) :=
  List.replicate CANVAS_HEIGHT (List.replicate CANVAS_WIDTH ⟨"white", none, none⟩)

/-- Read `pixels[y][x]` (total; the default is never reached on the
well-formed grids the server maintains). -/
def getCell (g : List (List Pixel)) (x y : Nat) : Pixel :=
  (g.getD y []).getD x default

/-- Write `pixels[y][x] = p`. -/
def setCell (g : List (List Pixel)) (x y : Nat) (p : Pixel) :
    List (List Pixel) :=
  g.set y ((g.getD y []).set x p)

/-- Expression `pixels.map(row => row.map(p => p.color))` — the flattened view built by
`getState` and by the debounced Redis save. -/
def flattenColors (g : List (List Pixel)) : List (List String) :=
  g.map (fun row => row.map Pixel.color)

/-- All cell colors of the grid in row-major order. -/
def gridColors (g : List (List Pixel)) : List String :=
  (flattenColors g).flatten

/-- The bounds test of `getPixel`/`setPixel`:
`x < 0 || x >= CANVAS_WIDTH || y < 0 || y >= CANVAS_HEIGHT`. -/
def outsideGrid (x y : Int) : Prop :=
  x < 0 ∨ (CANVAS_WIDTH : Int) ≤ x ∨ y < 0 ∨ (CANVAS_HEIGHT : Int) ≤ y

instance (x y : Int) : Decidable (outsideGrid x y) := by
  unfold outsideGrid; exact inferInstance

/-! ### The canvas -/

/-- The fields of the `Canvas` class that the verified operations touch.
`redisSaveTimer` holds the deadline of the armed `setTimeout`
(`null` ⟷ `none`). -/
structure Canvas where
  pixels : List (List Pixel)
  recentPlacements : List PixelPlacement
  cachedColors : Option (List (List String))
  stateDirty : Bool
  colorCounts : List (String × Nat)
  redisSaveTimer : Option Nat
  redisSavePending : Bool
deriving Repr

/-- Constant `REDIS_SAVE_INTERVAL_MS`. -/
def REDIS_SAVE_INTERVAL_MS : Nat := 5000

/-- The freshly constructed canvas: empty grid,
`colorCounts = { white: CANVAS_WIDTH * CANVAS_HEIGHT }`, dirty state cache,
no placements, no timer. -/
def initCanvas : Canvas where
  pixels := createEmptyCanvas
  recentPlacements := []
  cachedColors := none
  stateDirty := true
  colorCounts := [("white", CANVAS_WIDTH * CANVAS_HEIGHT)]
  redisSaveTimer := none
  redisSavePending := false

/-- Method `Canvas.getPixel`. -/
def Canvas.getPixel (c : Canvas) (x y : Int) : Option Pixel :=
  if outsideGrid x y then none
  else some (getCell c.pixels x.toNat y.toNat)

/-- The in-memory effect of `Canvas.setPixel` (everything before the
Redis block): bounds check, incremental `colorCounts` update using the
previous cell's color, cell overwrite, dirty flag, history push with
FIFO trim at 1000. -/
def setPixelMem (c : Canvas) (x y : Int) (color botId : String) (now : Nat) :
    Bool × Canvas :=
  if outsideGrid x y then (false, c)
  else
    let oldColor := (getCell c.pixels x.toNat y.toNat).color
    let cc := bumpCounts c.colorCounts oldColor color
    let pixels := setCell c.pixels x.toNat y.toNat ⟨color, some botId, some now⟩
    let placement : PixelPlacement := ⟨x, y, color, botId, now⟩
    let rp0 := c.recentPlacements ++ [placement]
    let rp := if 1000 < rp0.length then rp0.tail else rp0
    (true, { c with
      pixels := pixels
      colorCounts := cc
      recentPlacements := rp
      stateDirty := true })

/-- Method `Canvas.scheduleRedisSave`: set the pending flag; if a timer is armed
return, else arm one for `now + REDIS_SAVE_INTERVAL_MS`. -/
def scheduleRedisSave (c : Canvas) (now : Nat) : Canvas :=
  let c1 := { c with redisSavePending := true }
  match c1.redisSaveTimer with
  | some _ => c1
  | none => { c1 with redisSaveTimer := some (now + REDIS_SAVE_INTERVAL_MS) }

/-- State effect of the debounce `setTimeout` callback: clear the timer and
the pending flag (the full-grid write it then attempts is external and its
failure is swallowed). -/
def fireRedisSave (c : Canvas) : Canvas :=
  { c with redisSaveTimer := none, redisSavePending := false }

/-- The full `Canvas.setPixel`, with the external-cache block.  `redisOut`
is the combined outcome of the awaited `setPixelInfo` /
`incrementBotPixelCount` / `addRecentPlacement` calls; the surrounding
`try { … } catch { log }` swallows an error, so both arms continue with
`ok`. -/
def Canvas.setPixel (c : Canvas) (x y : Int) (color botId botName : String)
    (now : Nat) (useRedis : Bool) (redisOut : Except String Unit) :
    Except String (Bool × Canvas) :=
  match setPixelMem c x y color botId now with
  | (false, c0) => Except.ok (false, c0)
  | (true, c1) =>
    if useRedis then
      let c2 := scheduleRedisSave c1 now
      match redisOut with
      | Except.ok _ => Except.ok (true, c2)
      | Except.error _ => Except.ok (true, c2)  -- caught and logged
    else Except.ok (true, c1)

/-- The value returned by `Canvas.getState`. -/
structure CanvasState where
  colors : List (List String)
  width : Nat
  height : Nat
deriving DecidableEq, Repr

/-- Method `Canvas.getState`: rebuild the flattened view when
`stateDirty || !cachedColors`, else return the memo.  The middle `Bool`
reports which branch ran (the "rebuild counter" observable). -/
def Canvas.getState (c : Canvas) : CanvasState × Bool × Canvas :=
  match c.stateDirty, c.cachedColors with
  | false, some cached => (⟨cached, CANVAS_WIDTH, CANVAS_HEIGHT⟩, false, c)
  | _, _ =>
    let colors := flattenColors c.pixels
    (⟨colors, CANVAS_WIDTH, CANVAS_HEIGHT⟩, true,
      { c with cachedColors := some colors, stateDirty := false })

/-- Method `Canvas.getRegion`: out-of-bounds positions yield the background. -/
def Canvas.getRegion (c : Canvas) (x y w h : Int) : List (List String) :=
  (List.range h.toNat).map (fun dy =>
    (List.range w.toNat).map (fun dx =>
      let px := x + Int.ofNat dx
      let py := y + Int.ofNat dy
      if outsideGrid px py then "white"
      else (getCell c.pixels px.toNat py.toNat).color))

/-- Method `Canvas.getRecentPlacements(limit)`, i.e. `recentPlacements.slice(-limit)`.
JS `slice(-0)` is `slice(0)`, the whole array. -/
def Canvas.getRecentPlacements (c : Canvas) (limit : Nat) :
    List PixelPlacement :=
  if limit = 0 then c.recentPlacements
  else c.recentPlacements.drop (c.recentPlacements.length - limit)

/-! ### Event traces over the canvas -/

/-- Events the placement path reacts to: a placement request, the debounce
timer firing, a `getState` read. -/
inductive Ev where
  | place (x y : Int) (color botId : String) (now : Nat)
  | fire
  | read
deriving DecidableEq, Repr

/-- One event step against the in-memory canvas, with `config.useRedis`
enabled (the debounce path).  A `fire` only runs the callback when a timer
is actually armed. -/
def stepC (c : Canvas) : Ev → Canvas
  | Ev.place x y color botId now =>
    match setPixelMem c x y color botId now with
    | (false, c0) => c0
    | (true, c1) => scheduleRedisSave c1 now
  | Ev.fire =>
    match c.redisSaveTimer with
    | some _ => fireRedisSave c
    | none => c
  | Ev.read => (Canvas.getState c).2.2

/-- Run a trace of events. -/
def runC (c : Canvas) (evs : List Ev) : Canvas :=
  evs.foldl stepC c

/-- Number of full-grid external-cache writes a trace performs: one per
`fire` that finds an armed timer. -/
def writeCount (c : Canvas) : List Ev → Nat
  | [] => 0
  | e :: es =>
    (match e, c.redisSaveTimer with
      | Ev.fire, some _ => 1
      | _, _ => 0) + writeCount (stepC c e) es

/-- A placement request as it reaches `Canvas.setPixel`. -/
structure PlaceReq where
  x : Int
  y : Int
  color : String
  botId : String
  botName : String
  now : Nat
deriving DecidableEq, Repr

/-- The event a request contributes to a trace. -/
def reqEv (r : PlaceReq) : Ev :=
  Ev.place r.x r.y r.color r.botId r.now

/-- Run a batch of placements through the full fallible `setPixel`, every
external-cache operation returning `redisOut`; collects the returned
booleans and propagates any escaped error. -/
def runPlacements (c : Canvas) (reqs : List PlaceReq)
    (redisOut : Except String Unit) : Except String (List Bool × Canvas) :=
  match reqs with
  | [] => Except.ok ([], c)
  | r :: rs =>
    match Canvas.setPixel c r.x r.y r.color r.botId r.botName r.now true redisOut with
    | Except.ok (ok, c1) =>
      match runPlacements c1 rs redisOut with
      | Except.ok (oks, cf) => Except.ok (ok :: oks, cf)
      | Except.error e => Except.error e
    | Except.error e => Except.error e

/-! ### The legacy canvas revision that still carries `reset()` -/

/-- The state of the earlier `Canvas` class (grid + recent placements). -/
structure LegacyCanvas where
  pixels : List (List Pixel)
  recentPlacements : List PixelPlacement
deriving Repr

/-- Method `Canvas.reset` from the earlier revision:
`this.pixels = this.createEmptyCanvas(); this.recentPlacements = [];`. -/
def legacyReset (_c : LegacyCanvas) : LegacyCanvas :=
  { pixels := createEmptyCanvas, recentPlacements := [] }

/-! ### Archive service (`services/archive.ts`) -/

/-- An in-memory archive index record `{ id, timestamp }`. -/
structure ArchiveRec where
  id : String
  timestamp : Nat
deriving DecidableEq, Repr

/-- The configuration flags the snapshot path branches on. -/
structure ArchiveCfg where
  usePostgres : Bool
  useS3 : Bool
deriving DecidableEq, Repr

/-- Outcomes of the three durable backends for one snapshot attempt.
`pgOk`/`s3Ok` are the booleans `saveArchiveToDb` / `saveArchiveToS3`
resolve to; `localOk` is whether `writeFileSync` of the archive payload
succeeds (it throws otherwise). -/
structure BackendResults where
  pgOk : Bool
  s3Ok : Bool
  localOk : Bool
deriving DecidableEq, Repr

/-- Which backend a snapshot was persisted to. -/
inductive ArchiveBackend where
  | postgres
  | s3
  | localFile
deriving DecidableEq, Repr

/-- The archive id `` `archive_${timestamp}` ``. -/
def archiveIdOf (ts : Nat) : String :=
  "archive_" ++ toString ts

/-- Method `ArchiveService.saveCanvas`: try Postgres, then S3, then the local
file, stopping at the first success and prepending `{id, timestamp}` to the
index; a local `writeFileSync` throw escapes as an error. -/
def saveCanvasArchive (cfg : ArchiveCfg) (res : BackendResults) (ts : Nat)
    (archives : List ArchiveRec) :
    Except String (List ArchiveRec × ArchiveBackend) :=
  if cfg.usePostgres && res.pgOk then
    Except.ok (⟨archiveIdOf ts, ts⟩ :: archives, ArchiveBackend.postgres)
  else if cfg.useS3 && res.s3Ok then
    Except.ok (⟨archiveIdOf ts, ts⟩ :: archives, ArchiveBackend.s3)
  else if res.localOk then
    Except.ok (⟨archiveIdOf ts, ts⟩ :: archives, ArchiveBackend.localFile)
  else Except.error "writeFileSync failed"

/-- The archive index after one snapshot attempt: on an escaped error the
`this.archives` field is left as it was. -/
def runSnapshotIndex (cfg : ArchiveCfg) (res : BackendResults) (ts : Nat)
    (archives : List ArchiveRec) : List ArchiveRec :=
  match saveCanvasArchive cfg res ts archives with
  | Except.ok (l, _) => l
  | Except.error _ => archives

/-- Constant `CYCLE_MS = 24 * 60 * 60 * 1000`. -/
def CYCLE_MS : Nat := 24 * 60 * 60 * 1000

/-- The constructor's `nextMidnight.setUTCHours(24, 0, 0, 0)` on a date at
epoch-milliseconds `now`: the first UTC midnight strictly after the start
of `now`'s day. -/
def nextMidnightUtc (now : Nat) : Nat :=
  (now / CYCLE_MS + 1) * CYCLE_MS

/-- Re-arm step of `performSnapshot`: `this.nextSnapshotTime = Date.now() + CYCLE_MS`
where `Date.now()` is the completion time of the snapshot. -/
def rearmAfterSnapshot (completion : Nat) : Nat :=
  completion + CYCLE_MS

/-- The scheduled snapshot time after a run of snapshots: the constructor
arms the next-midnight boundary; each snapshot then completes `d`
milliseconds after its scheduled time (timer lateness plus snapshot
duration) and re-arms from that completion time. -/
def schedAfter (t0 : Nat) (delays : List Nat) : Nat :=
  delays.foldl (fun t d => rearmAfterSnapshot (t + d)) (nextMidnightUtc t0)

/-- Well-formed grid: `CANVAS_HEIGHT` rows of `CANVAS_WIDTH` cells each. -/
def WFgrid (g : List (List Pixel)) : Prop :=
  g.length = CANVAS_HEIGHT ∧ ∀ r ∈ g, r.length = CANVAS_WIDTH

/-- The inductive invariant of the running canvas: a well-formed grid, a
duplicate-free `colorCounts` record that counts exactly the grid's colors
and sums to the cell count, a serialized-state cache that is accurate
whenever the dirty flag is clear, and a bounded recent history. -/
def CanvasInv (c : Canvas) : Prop :=
  WFgrid c.pixels ∧ recKeysNodup c.colorCounts ∧
  (∀ s, recGetD c.colorCounts s 0 = (gridColors c.pixels).count s) ∧
  recSumValues c.colorCounts = CANVAS_WIDTH * CANVAS_HEIGHT ∧
  (c.stateDirty = false → c.cachedColors = some (flattenColors c.pixels)) ∧
  c.recentPlacements.length ≤ 1000

/-! ## Lemmas about record operations -/

theorem recGet_of_not_mem_keys (m : List (String × Nat)) (k : String)
    (h : k ∉ m.map Prod.fst) : recGet m k = none := by
  induction m with
  | nil => rfl
  | cons p ps ih =>
    simp only [List.map_cons, List.mem_cons, not_or] at h
    have hp : p.1 ≠ k := fun hq => h.1 hq.symm
    simp [recGet, hp, ih h.2]

theorem recGet_recSet_self (m : List (String × Nat)) (k : String) (v : Nat) :
    recGet (recSet m k v) k = some v := by
  induction m with
  | nil => simp [recSet, recGet]
  | cons p ps ih =>
    by_cases h : p.1 = k
    · simp [recSet, h, recGet]
    · simp [recSet, h, recGet, ih]

theorem recGet_recSet_ne (m : List (String × Nat)) (k k' : String) (v : Nat)
    (hne : k' ≠ k) : recGet (recSet m k v) k' = recGet m k' := by
  have hne' : k ≠ k' := Ne.symm hne
  induction m with
  | nil => simp [recSet, recGet, hne']
  | cons p ps ih =>
    by_cases h : p.1 = k
    · subst h
      simp [recSet, recGet, hne']
    · simp [recSet, h, recGet, ih]

theorem recGet_recDel_self (m : List (String × Nat)) (k : String) :
    recGet (recDel m k) k = none := by
  induction m with
  | nil => rfl
  | cons p ps ih =>
    by_cases h : p.1 = k
    · simp [recDel, h, ih]
    · simp [recDel, h, recGet, ih]

theorem recGet_recDel_ne (m : List (String × Nat)) (k k' : String)
    (hne : k' ≠ k) : recGet (recDel m k) k' = recGet m k' := by
  induction m with
  | nil => rfl
  | cons p ps ih =>
    by_cases h : p.1 = k
    · subst h
      have : p.1 ≠ k' := Ne.symm hne
      simp [recDel, recGet, this, ih]
    · simp [recDel, h, recGet, ih]

theorem recSum_recSet (m : List (String × Nat)) (k : String) (v : Nat) :
    recSumValues (recSet m k v) + recGetD m k 0 = recSumValues m + v := by
  induction m with
  | nil => simp [recSet, recSumValues, recGetD, recGet]
  | cons p ps ih =>
    by_cases h : p.1 = k
    · simp only [recSet, if_pos h, recSumValues, List.map_cons, List.sum_cons,
        recGetD, recGet, Option.getD_some]
      omega
    · simp only [recSet, if_neg h, recSumValues, List.map_cons, List.sum_cons,
        recGetD, recGet] at *
      omega

theorem recGetD_le_sum (m : List (String × Nat)) (k : String) :
    recGetD m k 0 ≤ recSumValues m := by
  induction m with
  | nil => simp [recGetD, recGet, recSumValues]
  | cons p ps ih =>
    by_cases h : p.1 = k
    · simp [recGetD, recGet, h, recSumValues]
    · simp only [recGetD, recGet, if_neg h, recSumValues, List.map_cons,
        List.sum_cons] at *
      omega

theorem recDel_of_not_mem_keys (m : List (String × Nat)) (k : String)
    (h : k ∉ m.map Prod.fst) : recDel m k = m := by
  induction m with
  | nil => rfl
  | cons p ps ih =>
    simp only [List.map_cons, List.mem_cons, not_or] at h
    have hp : p.1 ≠ k := fun hq => h.1 hq.symm
    simp [recDel, hp, ih h.2]

theorem keys_nodup_cons (p : String × Nat) (ps : List (String × Nat))
    (h : recKeysNodup (p :: ps)) :
    p.1 ∉ ps.map Prod.fst ∧ recKeysNodup ps := by
  rw [recKeysNodup, List.map_cons, List.nodup_cons] at h
  exact h

theorem recSum_recDel (m : List (String × Nat)) (k : String)
    (hnd : recKeysNodup m) :
    recSumValues (recDel m k) + recGetD m k 0 = recSumValues m := by
  induction m with
  | nil => simp [recDel, recSumValues, recGetD, recGet]
  | cons p ps ih =>
    have hcons := keys_nodup_cons p ps hnd
    have hnd' : recKeysNodup ps := hcons.2
    by_cases h : p.1 = k
    · subst h
      have hdel : recDel ps p.1 = ps := recDel_of_not_mem_keys ps p.1 hcons.1
      have h1 : recDel (p :: ps) p.1 = ps := by simp [recDel, hdel]
      rw [h1]
      simp [recGetD, recGet, recSumValues]
      omega
    · simp only [recDel, if_neg h, recGetD, recGet, recSumValues,
        List.map_cons, List.sum_cons] at *
      have := ih hnd'
      omega

theorem mem_keys_recSet (m : List (String × Nat)) (k a : String) (v : Nat)
    (h : a ∈ (recSet m k v).map Prod.fst) : a ∈ m.map Prod.fst ∨ a = k := by
  induction m with
  | nil => simpa [recSet] using h
  | cons p ps ih =>
    by_cases hp : p.1 = k
    · simp only [recSet, if_pos hp, List.map_cons, List.mem_cons] at h
      rcases h with h | h
      · right; exact h
      · left; simp [h]
    · simp only [recSet, if_neg hp, List.map_cons, List.mem_cons] at h ⊢
      rcases h with h | h
      · left; left; exact h
      · rcases ih h with h' | h'
        · left; right; exact h'
        · right; exact h'

theorem mem_keys_recDel (m : List (String × Nat)) (k a : String)
    (h : a ∈ (recDel m k).map Prod.fst) : a ∈ m.map Prod.fst := by
  induction m with
  | nil => simpa [recDel] using h
  | cons p ps ih =>
    by_cases hp : p.1 = k
    · simp only [recDel, if_pos hp] at h
      simp [ih h]
    · simp only [recDel, if_neg hp, List.map_cons, List.mem_cons] at h ⊢
      rcases h with h | h
      · left; exact h
      · right; exact ih h

theorem recSet_keysNodup (m : List (String × Nat)) (k : String) (v : Nat)
    (h : recKeysNodup m) : recKeysNodup (recSet m k v) := by
  induction m with
  | nil => simp [recSet, recKeysNodup]
  | cons p ps ih =>
    have hcons := keys_nodup_cons p ps h
    by_cases hp : p.1 = k
    · subst hp
      have h1 : recSet (p :: ps) p.1 v = (p.1, v) :: ps := by simp [recSet]
      rw [h1, recKeysNodup, List.map_cons, List.nodup_cons]
      exact ⟨hcons.1, hcons.2⟩
    · have htail : recKeysNodup (recSet ps k v) := ih hcons.2
      have hhead : p.1 ∉ (recSet ps k v).map Prod.fst := by
        intro hmem
        rcases mem_keys_recSet ps k p.1 v hmem with h' | h'
        · exact hcons.1 h'
        · exact hp h'
      simp only [recKeysNodup, recSet, if_neg hp, List.map_cons,
        List.nodup_cons]
      exact ⟨hhead, htail⟩

theorem recDel_keysNodup (m : List (String × Nat)) (k : String)
    (h : recKeysNodup m) : recKeysNodup (recDel m k) := by
  induction m with
  | nil => simp [recDel, recKeysNodup]
  | cons p ps ih =>
    have hcons := keys_nodup_cons p ps h
    by_cases hp : p.1 = k
    · simp only [recDel, if_pos hp]
      exact ih hcons.2
    · have hhead : p.1 ∉ (recDel ps k).map Prod.fst :=
        fun hmem => hcons.1 (mem_keys_recDel ps k p.1 hmem)
      simp only [recKeysNodup, recDel, if_neg hp, List.map_cons,
        List.nodup_cons]
      exact ⟨hhead, ih hcons.2⟩

/-! ## Lemmas about the `colorCounts` update -/

theorem bumpCounts_getD (cc : List (String × Nat)) (oldC newC : String)
    (hold : 1 ≤ recGetD cc oldC 0) (s : String) :
    recGetD (bumpCounts cc oldC newC) s 0 + (if oldC = s then 1 else 0)
      = recGetD cc s 0 + (if newC = s then 1 else 0) := by
  have hvne : ¬ recGetD cc oldC 0 = 0 := by omega
  unfold bumpCounts
  simp only [hvne, if_false]
  set n := recGetD cc oldC 0 - 1 with hn
  set cc1 := recSet cc oldC n with hcc1
  set cc2 := if n = 0 then recDel cc1 oldC else cc1 with hcc2
  have hA : ∀ t, recGetD cc2 t 0 = if t = oldC then n else recGetD cc t 0 := by
    intro t
    by_cases ht : t = oldC
    · subst ht
      by_cases hn0 : n = 0
      · rw [hcc2, if_pos hn0]
        simp [recGetD, recGet_recDel_self, hn0]
      · rw [hcc2, if_neg hn0, hcc1]
        simp [recGetD, recGet_recSet_self]
    · by_cases hn0 : n = 0
      · rw [hcc2, if_pos hn0, hcc1]
        simp [recGetD, recGet_recDel_ne _ oldC t ht,
          recGet_recSet_ne cc oldC t n ht, ht]
      · rw [hcc2, if_neg hn0, hcc1]
        simp [recGetD, recGet_recSet_ne cc oldC t n ht, ht]
  have hB : ∀ t, recGetD (recSet cc2 newC (recGetD cc2 newC 0 + 1)) t 0
      = if t = newC then recGetD cc2 newC 0 + 1 else recGetD cc2 t 0 := by
    intro t
    by_cases ht : t = newC
    · subst ht
      simp [recGetD, recGet_recSet_self]
    · simp [recGetD, recGet_recSet_ne cc2 newC t _ ht, ht]
  rw [hB s, hA s, hA newC]
  by_cases hs1 : s = newC
  · by_cases h2 : newC = oldC
    · rw [hs1, h2]
      simp
      omega
    · rw [hs1]
      simp [h2, Ne.symm h2]
  · by_cases hs2 : s = oldC
    · rw [hs2] at hs1 ⊢
      simp [hs1, Ne.symm hs1]
      omega
    · simp [hs1, hs2, Ne.symm hs1, Ne.symm hs2]

theorem bumpCounts_keysNodup (cc : List (String × Nat)) (oldC newC : String)
    (h : recKeysNodup cc) : recKeysNodup (bumpCounts cc oldC newC) := by
  unfold bumpCounts
  apply recSet_keysNodup
  by_cases hn0 : (if recGetD cc oldC 0 = 0 then 1 else recGetD cc oldC 0) - 1 = 0
  · rw [if_pos hn0]
    exact recDel_keysNodup _ _ (recSet_keysNodup _ _ _ h)
  · rw [if_neg hn0]
    exact recSet_keysNodup _ _ _ h

theorem bumpCounts_sum (cc : List (String × Nat)) (oldC newC : String)
    (hnd : recKeysNodup cc) (hold : 1 ≤ recGetD cc oldC 0) :
    recSumValues (bumpCounts cc oldC newC) = recSumValues cc := by
  have hvne : ¬ recGetD cc oldC 0 = 0 := by omega
  unfold bumpCounts
  simp only [hvne, if_false]
  set n := recGetD cc oldC 0 - 1 with hn
  set cc1 := recSet cc oldC n with hcc1
  have hnd1 : recKeysNodup cc1 := recSet_keysNodup _ _ _ hnd
  have h1 : recSumValues cc1 + recGetD cc oldC 0 = recSumValues cc + n :=
    recSum_recSet cc oldC n
  set cc2 := if n = 0 then recDel cc1 oldC else cc1 with hcc2
  have h2 : recSumValues cc2 = recSumValues cc1 := by
    by_cases hn0 : n = 0
    · rw [hcc2, if_pos hn0]
      have := recSum_recDel cc1 oldC hnd1
      have hg : recGetD cc1 oldC 0 = n := by
        rw [hcc1]; simp [recGetD, recGet_recSet_self]
      omega
    · rw [hcc2, if_neg hn0]
  have h3 : recSumValues (recSet cc2 newC (recGetD cc2 newC 0 + 1))
      + recGetD cc2 newC 0 = recSumValues cc2 + (recGetD cc2 newC 0 + 1) :=
    recSum_recSet cc2 newC _
  omega

/-! ## Generic list lemmas -/

theorem listGetD_set_ne {α : Type} (l : List α) (i j : Nat) (a d : α)
    (h : i ≠ j) : (l.set i a).getD j d = l.getD j d := by
  induction l generalizing i j with
  | nil => simp [List.set]
  | cons x xs ih =>
    cases i with
    | zero =>
      cases j with
      | zero => exact absurd rfl h
      | succ j' => simp [List.set, List.getD]
    | succ i' =>
      cases j with
      | zero => simp [List.set, List.getD]
      | succ j' =>
        simp only [List.set, List.getD_cons_succ]
        exact ih i' j' (fun hh => h (by rw [hh]))

theorem listGetD_set_self {α : Type} (l : List α) (i : Nat) (a d : α)
    (h : i < l.length) : (l.set i a).getD i d = a := by
  induction l generalizing i with
  | nil => simp at h
  | cons x xs ih =>
    cases i with
    | zero => simp [List.set, List.getD]
    | succ i' =>
      simp only [List.set, List.getD_cons_succ]
      exact ih i' (by simpa using h)

theorem listGetD_replicate {α : Type} (n i : Nat) (a d : α) (h : i < n) :
    (List.replicate n a).getD i d = a := by
  induction n generalizing i with
  | zero => omega
  | succ n' ih =>
    cases i with
    | zero => simp [List.replicate, List.getD]
    | succ i' =>
      simp only [List.replicate, List.getD_cons_succ]
      exact ih i' (by omega)

theorem listGetD_mem {α : Type} (l : List α) (i : Nat) (d : α)
    (h : i < l.length) : l.getD i d ∈ l := by
  induction l generalizing i with
  | nil => simp at h
  | cons x xs ih =>
    cases i with
    | zero => simp [List.getD]
    | succ i' =>
      simp only [List.getD_cons_succ]
      exact List.mem_cons_of_mem x (ih i' (by simpa using h))

theorem listGetD_map {α β : Type} (l : List α) (f : α → β) (i : Nat)
    (d : α) (d' : β) (h : i < l.length) :
    (l.map f).getD i d' = f (l.getD i d) := by
  induction l generalizing i with
  | nil => simp at h
  | cons x xs ih =>
    cases i with
    | zero => simp [List.getD]
    | succ i' =>
      simp only [List.map_cons, List.getD_cons_succ]
      exact ih i' (by simpa using h)

theorem listMap_set {α β : Type} (l : List α) (f : α → β) (i : Nat) (a : α) :
    (l.set i a).map f = (l.map f).set i (f a) := by
  induction l generalizing i with
  | nil => simp [List.set]
  | cons x xs ih =>
    cases i with
    | zero => simp [List.set]
    | succ i' => simp [List.set, ih]

theorem listCount_set {α : Type} [DecidableEq α] (l : List α) (i : Nat)
    (a b d : α) (h : i < l.length) :
    (l.set i a).count b + (if l.getD i d = b then 1 else 0)
      = l.count b + (if a = b then 1 else 0) := by
  induction l generalizing i with
  | nil => simp at h
  | cons x xs ih =>
    cases i with
    | zero =>
      simp only [List.set, List.getD_cons_zero, List.count_cons]
      by_cases hx : x = b <;> by_cases ha : a = b <;>
        simp [hx, ha] <;> omega
    | succ i' =>
      simp only [List.set, List.getD_cons_succ, List.count_cons]
      have h2 := ih i' (by simpa using h)
      by_cases hx : x = b
      · simp [hx] at h2 ⊢
        omega
      · simp [hx] at h2 ⊢
        omega

theorem listSum_set (l : List Nat) (i : Nat) (a : Nat) (h : i < l.length) :
    (l.set i a).sum + l.getD i 0 = l.sum + a := by
  induction l generalizing i with
  | nil => simp at h
  | cons x xs ih =>
    cases i with
    | zero => simp [List.set, List.getD]; omega
    | succ i' =>
      simp only [List.set, List.getD_cons_succ, List.sum_cons]
      have := ih i' (by simpa using h)
      omega

theorem listCount_flatten {α : Type} [DecidableEq α] (L : List (List α))
    (b : α) : L.flatten.count b = (L.map (fun l => l.count b)).sum := by
  induction L with
  | nil => simp
  | cons x xs ih => simp [List.count_append, ih]

theorem listMem_set {α : Type} (l : List α) (i : Nat) (a r : α)
    (h : r ∈ l.set i a) : r = a ∨ r ∈ l := by
  induction l generalizing i with
  | nil => simp [List.set] at h
  | cons x xs ih =>
    cases i with
    | zero =>
      rcases List.mem_cons.mp h with h' | h'
      · left; exact h'
      · right; exact List.mem_cons_of_mem x h'
    | succ i' =>
      rcases List.mem_cons.mp h with h' | h'
      · right; simp [h']
      · rcases ih i' h' with h'' | h''
        · left; exact h''
        · right; exact List.mem_cons_of_mem x h''

theorem listSet_of_le {α : Type} (l : List α) (i : Nat) (a : α)
    (h : l.length ≤ i) : l.set i a = l := by
  induction l generalizing i with
  | nil => simp
  | cons x xs ih =>
    cases i with
    | zero => simp at h
    | succ i' => simp [List.set, ih i' (by simpa using h)]

/-! ## Grid lemmas -/

theorem setCell_length (g : List (List Pixel)) (x y : Nat) (p : Pixel) :
    (setCell g x y p).length = g.length := by
  simp [setCell]

theorem WFgrid_setCell (g : List (List Pixel)) (x y : Nat) (p : Pixel)
    (h : WFgrid g) (hy : y < CANVAS_HEIGHT) : WFgrid (setCell g x y p) := by
  constructor
  · simp [setCell, h.1]
  · intro r hr
    rcases listMem_set _ _ _ _ hr with h' | h'
    · subst h'
      rw [List.length_set]
      exact h.2 _ (listGetD_mem g y [] (by rw [h.1]; exact hy))
    · exact h.2 _ h'

theorem getCell_setCell_self (g : List (List Pixel)) (x y : Nat) (p : Pixel)
    (hy : y < g.length) (hx : x < (g.getD y []).length) :
    getCell (setCell g x y p) x y = p := by
  unfold getCell setCell
  rw [listGetD_set_self _ _ _ _ (by simpa using hy)]
  exact listGetD_set_self _ _ _ _ hx

theorem getCell_setCell_ne (g : List (List Pixel)) (x y x' y' : Nat)
    (p : Pixel) (h : ¬(x' = x ∧ y' = y)) :
    getCell (setCell g x y p) x' y' = getCell g x' y' := by
  unfold getCell setCell
  by_cases hy : y' = y
  · subst hy
    have hx : x' ≠ x := fun hx => h ⟨hx, rfl⟩
    by_cases hlen : y' < g.length
    · rw [listGetD_set_self _ _ _ _ hlen]
      exact listGetD_set_ne _ _ _ _ _ (fun hh => hx hh.symm)
    · rw [listSet_of_le _ _ _ (by omega)]
  · rw [listGetD_set_ne _ _ _ _ _ (fun hh => hy hh.symm)]

theorem getCell_color_mem (g : List (List Pixel)) (x y : Nat)
    (h : WFgrid g) (hx : x < CANVAS_WIDTH) (hy : y < CANVAS_HEIGHT) :
    (getCell g x y).color ∈ gridColors g := by
  have hyl : y < g.length := by rw [h.1]; exact hy
  have hrowmem : g.getD y [] ∈ g := listGetD_mem g y [] hyl
  have hrowlen : (g.getD y []).length = CANVAS_WIDTH := h.2 _ hrowmem
  have hxl : x < (g.getD y []).length := by rw [hrowlen]; exact hx
  have hcellmem : (g.getD y []).getD x default ∈ g.getD y [] :=
    listGetD_mem _ x default hxl
  refine List.mem_flatten.mpr ⟨(g.getD y []).map Pixel.color, ?_, ?_⟩
  · exact List.mem_map_of_mem _ hrowmem
  · exact List.mem_map_of_mem Pixel.color hcellmem

theorem gridColors_setCell_count (g : List (List Pixel)) (x y : Nat)
    (p : Pixel) (s : String) (h : WFgrid g) (hx : x < CANVAS_WIDTH)
    (hy : y < CANVAS_HEIGHT) :
    (gridColors (setCell g x y p)).count s
        + (if (getCell g x y).color = s then 1 else 0)
      = (gridColors g).count s + (if p.color = s then 1 else 0) := by
  have hyl : y < g.length := by rw [h.1]; exact hy
  have hrowlen : (g.getD y []).length = CANVAS_WIDTH :=
    h.2 _ (listGetD_mem g y [] hyl)
  have hxl : x < (g.getD y []).length := by rw [hrowlen]; exact hx
  have hF : ∀ (G : List (List Pixel)), (gridColors G).count s
      = (G.map (fun r => (r.map Pixel.color).count s)).sum := by
    intro G
    rw [gridColors, listCount_flatten, flattenColors, List.map_map]
    rfl
  rw [hF, hF]
  have hmap : (setCell g x y p).map (fun r => (r.map Pixel.color).count s)
      = (g.map (fun r => (r.map Pixel.color).count s)).set y
          ((((g.getD y []).set x p).map Pixel.color).count s) := by
    rw [setCell, listMap_set]
  have hrowset : ((g.getD y []).set x p).map Pixel.color
      = ((g.getD y []).map Pixel.color).set x p.color := listMap_set _ _ _ _
  rw [hmap, hrowset]
  have hsum := listSum_set (g.map (fun r => (r.map Pixel.color).count s)) y
    ((((g.getD y []).map Pixel.color).set x p.color).count s)
    (by simpa using hyl)
  have hgetd : (g.map (fun r => (r.map Pixel.color).count s)).getD y 0
      = ((g.getD y []).map Pixel.color).count s :=
    listGetD_map g _ y [] 0 hyl
  have hcnt := listCount_set ((g.getD y []).map Pixel.color) x p.color s
    ((default : Pixel).color) (by simpa using hxl)
  have hcell : ((g.getD y []).map Pixel.color).getD x (default : Pixel).color
      = (getCell g x y).color := by
    rw [listGetD_map _ _ x default _ hxl]
    rfl
  rw [hgetd] at hsum
  rw [hcell] at hcnt
  omega

theorem WFgrid_empty : WFgrid createEmptyCanvas := by
  constructor
  · simp [createEmptyCanvas]
  · intro r hr
    rw [List.eq_of_mem_replicate hr]
    simp

theorem getCell_empty (x y : Nat) (hx : x < CANVAS_WIDTH)
    (hy : y < CANVAS_HEIGHT) :
    getCell createEmptyCanvas x y = ⟨"white", none, none⟩ := by
  unfold getCell createEmptyCanvas
  rw [listGetD_replicate _ _ _ _ hy, listGetD_replicate _ _ _ _ hx]

theorem gridColors_empty_count (s : String) :
    (gridColors createEmptyCanvas).count s
      = if s = "white" then CANVAS_WIDTH * CANVAS_HEIGHT else 0 := by
  rw [gridColors, listCount_flatten, flattenColors, createEmptyCanvas]
  rw [List.map_replicate, List.map_replicate, List.map_replicate]
  by_cases hs : s = "white"
  · simp [hs, List.count_replicate, List.sum_replicate, smul_eq_mul,
      Nat.mul_comm]
  · simp [hs, Ne.symm hs, List.count_replicate, List.sum_replicate]

/-! ## The canvas invariant -/

theorem canvasInv_init : CanvasInv initCanvas := by
  refine ⟨WFgrid_empty, ?_, ?_, ?_, ?_, ?_⟩
  · simp [initCanvas, recKeysNodup]
  · intro s
    show recGetD [("white", CANVAS_WIDTH * CANVAS_HEIGHT)] s 0
      = (gridColors createEmptyCanvas).count s
    rw [gridColors_empty_count]
    by_cases hs : s = "white"
    · subst hs
      simp [recGetD, recGet]
    · simp [recGetD, recGet, hs, Ne.symm hs]
  · simp [initCanvas, recSumValues]
  · intro h
    simp [initCanvas] at h
  · simp [initCanvas]

theorem inBounds_toNat (x y : Int) (hb : ¬ outsideGrid x y) :
    x.toNat < CANVAS_WIDTH ∧ y.toNat < CANVAS_HEIGHT := by
  unfold outsideGrid at hb
  push_neg at hb
  unfold CANVAS_WIDTH CANVAS_HEIGHT at *
  omega

theorem canvasInv_setPixelMem (c : Canvas) (x y : Int) (color botId : String)
    (now : Nat) (h : CanvasInv c) :
    CanvasInv (setPixelMem c x y color botId now).2 := by
  by_cases hb : outsideGrid x y
  · simp only [setPixelMem, if_pos hb]
    exact h
  · obtain ⟨hx', hy'⟩ := inBounds_toNat x y hb
    obtain ⟨hWF, hnd, hcnt, hsum, hcache, hrp⟩ := h
    have hmem : (getCell c.pixels x.toNat y.toNat).color ∈ gridColors c.pixels :=
      getCell_color_mem c.pixels x.toNat y.toNat hWF hx' hy'
    have hold : 1 ≤ recGetD c.colorCounts
        (getCell c.pixels x.toNat y.toNat).color 0 := by
      rw [hcnt]
      have hne : (gridColors c.pixels).count
          (getCell c.pixels x.toNat y.toNat).color ≠ 0 :=
        fun h0 => (List.count_eq_zero.mp h0) hmem
      omega
    simp only [setPixelMem, if_neg hb]
    unfold CanvasInv
    dsimp only
    refine ⟨?_, ?_, ?_, ?_, ?_, ?_⟩
    · exact WFgrid_setCell _ _ _ _ hWF hy'
    · exact bumpCounts_keysNodup _ _ _ hnd
    · intro s
      have hb1 := bumpCounts_getD c.colorCounts
        (getCell c.pixels x.toNat y.toNat).color color hold s
      have hb2 := gridColors_setCell_count c.pixels x.toNat y.toNat
        ⟨color, some botId, some now⟩ s hWF hx' hy'
      dsimp only at hb2
      have hc := hcnt s
      omega
    · rw [bumpCounts_sum _ _ _ hnd hold]
      exact hsum
    · intro hfalse
      simp at hfalse
    · by_cases hlen : 1000 < (c.recentPlacements ++
          [(⟨x, y, color, botId, now⟩ : PixelPlacement)]).length
      · simp only [if_pos hlen]
        simp at hlen ⊢
        omega
      · simp only [if_neg hlen]
        simp at hlen ⊢
        omega

theorem canvasInv_schedule (c : Canvas) (now : Nat) (h : CanvasInv c) :
    CanvasInv (scheduleRedisSave c now) := by
  obtain ⟨hWF, hnd, hcnt, hsum, hcache, hrp⟩ := h
  unfold scheduleRedisSave
  cases htimer : c.redisSaveTimer <;>
    exact ⟨hWF, hnd, hcnt, hsum, hcache, hrp⟩

theorem canvasInv_fire (c : Canvas) (h : CanvasInv c) :
    CanvasInv (fireRedisSave c) := by
  obtain ⟨hWF, hnd, hcnt, hsum, hcache, hrp⟩ := h
  exact ⟨hWF, hnd, hcnt, hsum, hcache, hrp⟩

theorem canvasInv_getState (c : Canvas) (h : CanvasInv c) :
    CanvasInv (Canvas.getState c).2.2 := by
  obtain ⟨hWF, hnd, hcnt, hsum, hcache, hrp⟩ := h
  unfold Canvas.getState
  cases hd : c.stateDirty with
  | false =>
    cases hc : c.cachedColors with
    | none => exact ⟨hWF, hnd, hcnt, hsum, fun _ => rfl, hrp⟩
    | some v => exact ⟨hWF, hnd, hcnt, hsum, hcache, hrp⟩
  | true => exact ⟨hWF, hnd, hcnt, hsum, fun _ => rfl, hrp⟩

theorem canvasInv_stepC (c : Canvas) (e : Ev) (h : CanvasInv c) :
    CanvasInv (stepC c e) := by
  cases e with
  | place x y color botId now =>
    have h1 := canvasInv_setPixelMem c x y color botId now h
    cases hres : setPixelMem c x y color botId now with
    | mk ok c' =>
      rw [hres] at h1
      cases ok with
      | false =>
        simp only [stepC, hres]
        exact h1
      | true =>
        simp only [stepC, hres]
        exact canvasInv_schedule c' now h1
  | fire =>
    cases htimer : c.redisSaveTimer with
    | none =>
      simp only [stepC, htimer]
      exact h
    | some d =>
      simp only [stepC, htimer]
      exact canvasInv_fire c h
  | read =>
    simp only [stepC]
    exact canvasInv_getState c h

theorem canvasInv_runC (evs : List Ev) (c : Canvas) (h : CanvasInv c) :
    CanvasInv (runC c evs) := by
  induction evs generalizing c with
  | nil => exact h
  | cons e es ih => exact ih (stepC c e) (canvasInv_stepC c e h)

theorem canvasInv_run_init (evs : List Ev) : CanvasInv (runC initCanvas evs) :=
  canvasInv_runC evs initCanvas canvasInv_init

/-! ## Characterization lemmas for the canvas operations -/

theorem getState_spec (c : Canvas) (h : CanvasInv c) :
    (Canvas.getState c).1
        = ⟨flattenColors c.pixels, CANVAS_WIDTH, CANVAS_HEIGHT⟩
      ∧ (Canvas.getState c).2.2.stateDirty = false
      ∧ (Canvas.getState c).2.2.cachedColors = some (flattenColors c.pixels)
      ∧ (Canvas.getState c).2.2.pixels = c.pixels := by
  unfold Canvas.getState
  cases hd : c.stateDirty with
  | true => simp
  | false =>
    cases hcc : c.cachedColors with
    | none => simp
    | some v =>
      have hv : some v = some (flattenColors c.pixels) := by
        rw [← hcc]
        exact h.2.2.2.2.1 hd
      have hv' : v = flattenColors c.pixels := Option.some.inj hv
      simp [hv', hd, hcc]

theorem getState_memo (c : Canvas)
    (hd : c.stateDirty = false) (hcc : c.cachedColors = some v) :
    Canvas.getState c = (⟨v, CANVAS_WIDTH, CANVAS_HEIGHT⟩, false, c) := by
  unfold Canvas.getState
  rw [hd, hcc]

theorem setPixelMem_fst (c : Canvas) (x y : Int) (color botId : String)
    (now : Nat) (hb : ¬ outsideGrid x y) :
    (setPixelMem c x y color botId now).1 = true := by
  simp [setPixelMem, if_neg hb]

theorem setPixelMem_fst_oob (c : Canvas) (x y : Int) (color botId : String)
    (now : Nat) (hb : outsideGrid x y) :
    setPixelMem c x y color botId now = (false, c) := by
  simp [setPixelMem, if_pos hb]

theorem setPixelMem_redis_fields (c : Canvas) (x y : Int)
    (color botId : String) (now : Nat) :
    (setPixelMem c x y color botId now).2.redisSaveTimer = c.redisSaveTimer
      ∧ (setPixelMem c x y color botId now).2.redisSavePending
          = c.redisSavePending := by
  unfold setPixelMem
  by_cases hb : outsideGrid x y
  · rw [if_pos hb]
    exact ⟨rfl, rfl⟩
  · rw [if_neg hb]
    exact ⟨rfl, rfl⟩

theorem scheduleRedisSave_armed (c : Canvas) (now d : Nat)
    (h : c.redisSaveTimer = some d) :
    scheduleRedisSave c now = { c with redisSavePending := true } := by
  unfold scheduleRedisSave
  rw [h]

theorem scheduleRedisSave_unarmed (c : Canvas) (now : Nat)
    (h : c.redisSaveTimer = none) :
    scheduleRedisSave c now = { c with
      redisSavePending := true
      redisSaveTimer := some (now + REDIS_SAVE_INTERVAL_MS) } := by
  unfold scheduleRedisSave
  rw [h]

theorem setPixel_char (c : Canvas) (x y : Int) (color botId botName : String)
    (now : Nat) (redisOut : Except String Unit) :
    Canvas.setPixel c x y color botId botName now true redisOut
      = Except.ok ((setPixelMem c x y color botId now).1,
          stepC c (Ev.place x y color botId now)) := by
  unfold Canvas.setPixel
  cases hres : setPixelMem c x y color botId now with
  | mk ok c' =>
    cases ok with
    | false =>
      simp only [stepC, hres]
    | true =>
      cases redisOut with
      | ok u => simp only [stepC, hres, if_pos]
      | error e => simp only [stepC, hres, if_pos]

theorem runC_append (c : Canvas) (l1 l2 : List Ev) :
    runC c (l1 ++ l2) = runC (runC c l1) l2 := by
  unfold runC
  exact List.foldl_append stepC c l1 l2

theorem writeCount_append (c : Canvas) (l1 l2 : List Ev) :
    writeCount c (l1 ++ l2) = writeCount c l1 + writeCount (runC c l1) l2 := by
  induction l1 generalizing c with
  | nil => simp [writeCount, runC]
  | cons e es ih =>
    simp only [List.cons_append, writeCount, runC, List.foldl_cons,
      List.append_eq]
    rw [ih (stepC c e)]
    unfold runC
    omega

theorem placesRun_armed (reqs : List PlaceReq) (c : Canvas) (d : Nat)
    (htimer : c.redisSaveTimer = some d) (hpend : c.redisSavePending = true) :
    (runC c (reqs.map reqEv)).redisSaveTimer = some d
      ∧ (runC c (reqs.map reqEv)).redisSavePending = true
      ∧ writeCount c (reqs.map reqEv) = 0 := by
  induction reqs generalizing c with
  | nil => exact ⟨htimer, hpend, rfl⟩
  | cons r rs ih =>
    simp only [List.map_cons, runC, List.foldl_cons, writeCount, reqEv]
    have hmem := setPixelMem_redis_fields c r.x r.y r.color r.botId r.now
    have hstep : (stepC c (Ev.place r.x r.y r.color r.botId r.now)).redisSaveTimer = some d
        ∧ (stepC c (Ev.place r.x r.y r.color r.botId r.now)).redisSavePending = true := by
      cases hres : setPixelMem c r.x r.y r.color r.botId r.now with
      | mk ok c' =>
        rw [hres] at hmem
        cases ok with
        | false =>
          simp only [stepC, hres]
          exact ⟨hmem.1.trans htimer, hmem.2.trans hpend⟩
        | true =>
          simp only [stepC, hres]
          rw [scheduleRedisSave_armed c' r.now d (hmem.1.trans htimer)]
          exact ⟨hmem.1.trans htimer, rfl⟩
    have := ih (stepC c (Ev.place r.x r.y r.color r.botId r.now))
      hstep.1 hstep.2
    unfold runC at this
    simpa using this

theorem listGetD_range (n i d : Nat) (h : i < n) :
    (List.range n).getD i d = i := by
  rw [List.getD_eq_getElem _ d (by simpa using h)]
  simp

theorem listTail_append_singleton {α : Type} (l : List α) (a : α)
    (h : l ≠ []) : (l ++ [a]).tail = l.tail ++ [a] := by
  cases l with
  | nil => exact absurd rfl h
  | cons x xs => rfl

theorem setCell_row_length (g : List (List Pixel)) (x y j : Nat) (p : Pixel) :
    ((setCell g x y p).getD j []).length = (g.getD j []).length := by
  unfold setCell
  by_cases hj : j = y
  · subst hj
    by_cases hl : j < g.length
    · rw [listGetD_set_self _ _ _ _ hl, List.length_set]
    · rw [listSet_of_le _ _ _ (by omega)]
  · rw [listGetD_set_ne _ _ _ _ _ (fun hh => hj hh.symm)]

theorem getRegion_length (c : Canvas) (x y : Int) (w h : Nat) :
    (Canvas.getRegion c x y (w : Int) (h : Int)).length = h
      ∧ ∀ row ∈ Canvas.getRegion c x y (w : Int) (h : Int),
          row.length = w := by
  constructor
  · simp [Canvas.getRegion]
  · intro row hrow
    unfold Canvas.getRegion at hrow
    rcases List.mem_map.mp hrow with ⟨dy, _, hdy⟩
    rw [← hdy]
    simp

theorem getRegion_entry (c : Canvas) (x y : Int) (w h : Nat) (dx dy : Nat)
    (hdx : dx < w) (hdy : dy < h) :
    ((Canvas.getRegion c x y (w : Int) (h : Int)).getD dy []).getD dx ""
      = if outsideGrid (x + Int.ofNat dx) (y + Int.ofNat dy) then "white"
        else (getCell c.pixels (x + Int.ofNat dx).toNat
          (y + Int.ofNat dy).toNat).color := by
  unfold Canvas.getRegion
  have hw : (w : Int).toNat = w := by simp
  have hh : (h : Int).toNat = h := by simp
  rw [hw, hh]
  rw [listGetD_map (List.range h) _ dy 0 [] (by simpa using hdy),
    listGetD_range h dy 0 hdy]
  rw [listGetD_map (List.range w) _ dx 0 "" (by simpa using hdx),
    listGetD_range w dx 0 hdx]

theorem stepC_fire_armed (c : Canvas) (d : Nat)
    (h : c.redisSaveTimer = some d) : stepC c Ev.fire = fireRedisSave c := by
  simp only [stepC, h]

theorem stepC_fire_unarmed (c : Canvas) (h : c.redisSaveTimer = none) :
    stepC c Ev.fire = c := by
  simp only [stepC, h]

theorem firesRun_unarmed (k : Nat) (c : Canvas)
    (h : c.redisSaveTimer = none) :
    runC c (List.replicate k Ev.fire) = c
      ∧ writeCount c (List.replicate k Ev.fire) = 0 := by
  induction k with
  | zero => exact ⟨rfl, rfl⟩
  | succ k' ih =>
    have hstep : stepC c Ev.fire = c := stepC_fire_unarmed c h
    constructor
    · simp only [List.replicate, runC, List.foldl_cons, hstep]
      exact ih.1
    · simp only [List.replicate, writeCount, h, hstep, Nat.zero_add]
      exact ih.2

theorem runPlacements_ok (reqs : List PlaceReq) (c : Canvas)
    (out : Except String Unit)
    (hin : ∀ r ∈ reqs, ¬ outsideGrid r.x r.y) :
    runPlacements c reqs out
      = Except.ok (List.replicate reqs.length true,
          runC c (reqs.map reqEv)) := by
  induction reqs generalizing c with
  | nil => simp [runPlacements, runC]
  | cons r rs ih =>
    have hr : ¬ outsideGrid r.x r.y := hin r (List.mem_cons_self r rs)
    have hrs : ∀ q ∈ rs, ¬ outsideGrid q.x q.y :=
      fun q hq => hin q (List.mem_cons_of_mem r hq)
    have hchar := setPixel_char c r.x r.y r.color r.botId r.botName r.now out
    have hfst := setPixelMem_fst c r.x r.y r.color r.botId r.now hr
    simp only [runPlacements, hchar, hfst]
    rw [ih (stepC c (Ev.place r.x r.y r.color r.botId r.now)) hrs]
    simp [runC, reqEv, List.replicate]

theorem schedAfter_closed (t0 : Nat) (delays : List Nat) :
    schedAfter t0 delays
      = nextMidnightUtc t0 + CYCLE_MS * delays.length + delays.sum := by
  unfold schedAfter
  generalize nextMidnightUtc t0 = a
  induction delays generalizing a with
  | nil => simp
  | cons d ds ih =>
    simp only [List.foldl_cons, List.sum_cons, List.length_cons]
    rw [ih (rearmAfterSnapshot (a + d))]
    unfold rearmAfterSnapshot
    rw [Nat.mul_succ]
    omega

/-! ## Claim theorems -/

/-- C1: for every sequence of in-bounds `setPixel` placements starting from
the freshly constructed canvas, after each placement the sum of all values
in `colorCounts` equals `CANVAS_WIDTH * CANVAS_HEIGHT` (1300·900).  (The
quantification over `reqs` covers the state after each placement of any
longer sequence.) -/
theorem claim1_colorCounts_sum (reqs : List PlaceReq)
    (hin : ∀ r ∈ reqs, ¬ outsideGrid r.x r.y) :
    recSumValues (runC initCanvas (reqs.map reqEv)).colorCounts
      = CANVAS_WIDTH * CANVAS_HEIGHT :=
  (canvasInv_run_init (reqs.map reqEv)).2.2.2.1

theorem claim1_colorCounts_sum_witness :
    recSumValues (runC initCanvas
        ([⟨1, 2, "red", "bot1", "Bot One", 5⟩].map reqEv)).colorCounts
      = CANVAS_WIDTH * CANVAS_HEIGHT :=
  claim1_colorCounts_sum [⟨1, 2, "red", "bot1", "Bot One", 5⟩] (by decide)

/-- C2: external-cache failures never affect the in-memory placement path.
Running any batch of in-bounds placements with every external-cache
operation failing (outcome `Except.error e`) (i) returns `ok` with every
`setPixel` reporting `true` and the canvas equal to the in-memory run,
(ii) is identical to the run in which every external operation succeeds,
and (iii) `getState` of the resulting canvas is the flattening of the grid
holding all the placements — no error escapes to the caller. -/
theorem claim2_redis_failure_isolated (reqs : List PlaceReq) (e : String)
    (hin : ∀ r ∈ reqs, ¬ outsideGrid r.x r.y) :
    runPlacements initCanvas reqs (Except.error e)
        = Except.ok (List.replicate reqs.length true,
            runC initCanvas (reqs.map reqEv))
      ∧ runPlacements initCanvas reqs (Except.error e)
          = runPlacements initCanvas reqs (Except.ok ())
      ∧ (Canvas.getState (runC initCanvas (reqs.map reqEv))).1.colors
          = flattenColors (runC initCanvas (reqs.map reqEv)).pixels := by
  have h1 := runPlacements_ok reqs initCanvas (Except.error e) hin
  have h2 := runPlacements_ok reqs initCanvas (Except.ok ()) hin
  have h3 := (getState_spec _ (canvasInv_run_init (reqs.map reqEv))).1
  exact ⟨h1, h1.trans h2.symm, by rw [h3]⟩

theorem claim2_redis_failure_isolated_witness :
    runPlacements initCanvas
        [⟨3, 4, "blue", "b2", "Bot Two", 9⟩] (Except.error "redis down")
      = Except.ok (List.replicate 1 true,
          runC initCanvas ([⟨3, 4, "blue", "b2", "Bot Two", 9⟩].map reqEv)) :=
  (claim2_redis_failure_isolated [⟨3, 4, "blue", "b2", "Bot Two", 9⟩]
    "redis down" (by decide)).1

/-- C3: after any trace of placements and reads, `getState` returns exactly
the row-by-row flattening of the current grid together with width 1300 and
height 900, and a second `getState` with no intervening `setPixel` returns
the identical value without a second rebuild (the middle component `false`
is the "did rebuild" observable) and leaves the canvas unchanged. -/
theorem claim3_getState_refines (evs : List Ev) :
    (Canvas.getState (runC initCanvas evs)).1
        = ⟨flattenColors (runC initCanvas evs).pixels,
            CANVAS_WIDTH, CANVAS_HEIGHT⟩
      ∧ Canvas.getState ((Canvas.getState (runC initCanvas evs)).2.2)
          = ((Canvas.getState (runC initCanvas evs)).1, false,
              (Canvas.getState (runC initCanvas evs)).2.2) := by
  have hs := getState_spec _ (canvasInv_run_init evs)
  refine ⟨hs.1, ?_⟩
  have hpix : ((Canvas.getState (runC initCanvas evs)).2.2).pixels
      = (runC initCanvas evs).pixels := hs.2.2.2
  have hmemo := getState_memo ((Canvas.getState (runC initCanvas evs)).2.2)
    hs.2.1 (hpix ▸ hs.2.2.1)
  rw [hmemo, hs.1, hpix]

/-- C7: the snapshot scheduler's next time is initialized to the next UTC
midnight and re-armed to completion time + 24 h, so it is not
resynchronized to the calendar: after any run of snapshots the scheduled
time equals the initial midnight plus one cycle per snapshot plus the sum
of all completion delays (every delay shifts all later snapshots forward),
and re-arming agrees with the next calendar midnight only when the
completion lands exactly on a midnight. -/
theorem claim7_schedule_drift (t0 : Nat) (delays : List Nat) :
    schedAfter t0 [] = nextMidnightUtc t0
      ∧ schedAfter t0 delays
          = nextMidnightUtc t0 + CYCLE_MS * delays.length + delays.sum
      ∧ (∀ d, schedAfter t0 (delays ++ [d])
          = schedAfter t0 (delays ++ [0]) + d)
      ∧ (∀ tc, rearmAfterSnapshot tc = nextMidnightUtc tc
          ↔ tc % CYCLE_MS = 0) := by
  refine ⟨by simp [schedAfter_closed], schedAfter_closed t0 delays, ?_, ?_⟩
  · intro d
    rw [schedAfter_closed, schedAfter_closed]
    simp [List.sum_append]
    omega
  · intro tc
    unfold rearmAfterSnapshot nextMidnightUtc CYCLE_MS
    omega

/-- C4: for every out-of-bounds coordinate `getPixel` returns `none` and
`setPixel` reports failure leaving the canvas (grid, `colorCounts`,
history, dirty flag) unchanged; for every in-bounds coordinate `getPixel`
returns that cell; `getRegion` is always sized `h × w`, fills every
position whose absolute coordinate is out of bounds with the background
`"white"` and never errors, and returns the grid cell's color at every
in-bounds position. -/
theorem claim4_bounds_handling (c : Canvas) (x y : Int)
    (color botId : String) (now : Nat) (w h : Nat) :
    (outsideGrid x y → Canvas.getPixel c x y = none
        ∧ setPixelMem c x y color botId now = (false, c))
      ∧ (¬ outsideGrid x y → Canvas.getPixel c x y
          = some (getCell c.pixels x.toNat y.toNat))
      ∧ (Canvas.getRegion c x y (w : Int) (h : Int)).length = h
      ∧ (∀ row ∈ Canvas.getRegion c x y (w : Int) (h : Int), row.length = w)
      ∧ (∀ dx dy : Nat, dx < w → dy < h →
          outsideGrid (x + Int.ofNat dx) (y + Int.ofNat dy) →
          ((Canvas.getRegion c x y (w : Int) (h : Int)).getD dy []).getD dx ""
            = "white")
      ∧ (∀ dx dy : Nat, dx < w → dy < h →
          ¬ outsideGrid (x + Int.ofNat dx) (y + Int.ofNat dy) →
          ((Canvas.getRegion c x y (w : Int) (h : Int)).getD dy []).getD dx ""
            = (getCell c.pixels (x + Int.ofNat dx).toNat
                (y + Int.ofNat dy).toNat).color) := by
  refine ⟨?_, ?_, (getRegion_length c x y w h).1,
    (getRegion_length c x y w h).2, ?_, ?_⟩
  · intro hb
    exact ⟨by simp [Canvas.getPixel, if_pos hb],
      setPixelMem_fst_oob c x y color botId now hb⟩
  · intro hb
    simp [Canvas.getPixel, if_neg hb]
  · intro dx dy hdx hdy hb
    rw [getRegion_entry c x y w h dx dy hdx hdy, if_pos hb]
  · intro dx dy hdx hdy hb
    rw [getRegion_entry c x y w h dx dy hdx hdy, if_neg hb]

theorem claim4_bounds_handling_witness :
    Canvas.getPixel initCanvas (-1) 0 = none
      ∧ setPixelMem initCanvas (-1) 0 "red" "b1" 7 = (false, initCanvas)
      ∧ ((Canvas.getRegion initCanvas (-1) (-1) ((3 : Nat) : Int)
          ((3 : Nat) : Int)).getD 0 []).getD 0 "" = "white" := by
  refine ⟨?_, ?_, ?_⟩
  · exact ((claim4_bounds_handling initCanvas (-1) 0 "red" "b1" 7 3 3).1
      (by decide)).1
  · exact ((claim4_bounds_handling initCanvas (-1) 0 "red" "b1" 7 3 3).1
      (by decide)).2
  · exact (claim4_bounds_handling initCanvas (-1) (-1) "red" "b1" 7 3
      3).2.2.2.2.1 0 0 (by decide) (by decide) (by decide)

/-- C5: debounce coalescing.  From a flushed state (no armed timer), the
first in-bounds placement arms a single timer for its time plus 5000 ms;
any further placements in the window neither restart it (the deadline
stays the first placement's) nor create timers, and no full-grid write
happens during the placements; once the timer fires — however many fire
events follow — exactly one full-grid external-cache write is performed,
and firing clears the pending flag and the timer. -/
theorem claim5_debounce_coalescing (c0 : Canvas) (first : PlaceReq)
    (rest : List PlaceReq) (k : Nat)
    (hflushed : c0.redisSaveTimer = none)
    (hin : ¬ outsideGrid first.x first.y) (hk : 1 ≤ k) :
    (runC c0 ((first :: rest).map reqEv)).redisSaveTimer
        = some (first.now + REDIS_SAVE_INTERVAL_MS)
      ∧ (runC c0 ((first :: rest).map reqEv)).redisSavePending = true
      ∧ writeCount c0 ((first :: rest).map reqEv) = 0
      ∧ writeCount c0 ((first :: rest).map reqEv
            ++ List.replicate k Ev.fire) = 1
      ∧ (runC c0 ((first :: rest).map reqEv ++ [Ev.fire])).redisSavePending
          = false
      ∧ (runC c0 ((first :: rest).map reqEv ++ [Ev.fire])).redisSaveTimer
          = none := by
  have hmem := setPixelMem_redis_fields c0 first.x first.y first.color
    first.botId first.now
  have hfst := setPixelMem_fst c0 first.x first.y first.color first.botId
    first.now hin
  have hstep1 : stepC c0 (reqEv first)
      = scheduleRedisSave
          (setPixelMem c0 first.x first.y first.color first.botId first.now).2
          first.now := by
    unfold reqEv
    cases hres : setPixelMem c0 first.x first.y first.color first.botId
      first.now with
    | mk ok c1 =>
      rw [hres] at hfst
      cases ok with
      | false => simp at hfst
      | true => simp only [stepC, hres]
  have harm := scheduleRedisSave_unarmed
    (setPixelMem c0 first.x first.y first.color first.botId first.now).2
    first.now (hmem.1.trans hflushed)
  have hstep1' : (stepC c0 (reqEv first)).redisSaveTimer
        = some (first.now + REDIS_SAVE_INTERVAL_MS)
      ∧ (stepC c0 (reqEv first)).redisSavePending = true := by
    rw [hstep1, harm]
    exact ⟨rfl, rfl⟩
  have hrun : runC c0 ((first :: rest).map reqEv)
      = runC (stepC c0 (reqEv first)) (rest.map reqEv) := by
    simp [runC]
  have hplaces := placesRun_armed rest (stepC c0 (reqEv first))
    (first.now + REDIS_SAVE_INTERVAL_MS) hstep1'.1 hstep1'.2
  have hcount0 : writeCount c0 ((first :: rest).map reqEv) = 0 := by
    have : writeCount c0 ((first :: rest).map reqEv)
        = writeCount c0 [reqEv first]
          + writeCount (runC c0 [reqEv first]) (rest.map reqEv) := by
      have := writeCount_append c0 [reqEv first] (rest.map reqEv)
      simpa using this
    rw [this]
    have h1 : writeCount c0 [reqEv first] = 0 := by
      unfold reqEv writeCount
      simp [writeCount]
    have h2 : runC c0 [reqEv first] = stepC c0 (reqEv first) := by
      simp [runC]
    rw [h1, h2, hplaces.2.2]
  have htimer : (runC c0 ((first :: rest).map reqEv)).redisSaveTimer
      = some (first.now + REDIS_SAVE_INTERVAL_MS) := by
    rw [hrun]; exact hplaces.1
  have hpend : (runC c0 ((first :: rest).map reqEv)).redisSavePending
      = true := by
    rw [hrun]; exact hplaces.2.1
  refine ⟨htimer, hpend, hcount0, ?_, ?_, ?_⟩
  · rw [writeCount_append, hcount0]
    cases k with
    | zero => omega
    | succ k' =>
      have hrepl : List.replicate (k' + 1) Ev.fire
          = Ev.fire :: List.replicate k' Ev.fire := rfl
      rw [hrepl]
      set cP := runC c0 ((first :: rest).map reqEv) with hcP
      have hfire : stepC cP Ev.fire = fireRedisSave cP :=
        stepC_fire_armed cP _ htimer
      have hafter : (fireRedisSave cP).redisSaveTimer = none := rfl
      have hrest := firesRun_unarmed k' (fireRedisSave cP) hafter
      simp only [writeCount, htimer, hfire]
      rw [hrest.2]
  · rw [runC_append]
    set cP := runC c0 ((first :: rest).map reqEv) with hcP
    have hfire : stepC cP Ev.fire = fireRedisSave cP :=
      stepC_fire_armed cP _ htimer
    show (runC cP [Ev.fire]).redisSavePending = false
    simp [runC, hfire, fireRedisSave]
  · rw [runC_append]
    set cP := runC c0 ((first :: rest).map reqEv) with hcP
    have hfire : stepC cP Ev.fire = fireRedisSave cP :=
      stepC_fire_armed cP _ htimer
    show (runC cP [Ev.fire]).redisSaveTimer = none
    simp [runC, hfire, fireRedisSave]

theorem claim5_debounce_coalescing_witness :
    writeCount initCanvas
        (([⟨1, 1, "red", "b1", "B1", 10⟩, ⟨2, 2, "blue", "b2", "B2", 11⟩,
            ⟨3, 3, "gold", "b3", "B3", 12⟩] : List PlaceReq).map reqEv
          ++ List.replicate 2 Ev.fire) = 1 :=
  (claim5_debounce_coalescing initCanvas ⟨1, 1, "red", "b1", "B1", 10⟩
    [⟨2, 2, "blue", "b2", "B2", 11⟩, ⟨3, 3, "gold", "b3", "B3", 12⟩] 2
    rfl (by decide) (by decide)).2.2.2.1

/-- C6: each snapshot attempt tries the durable backends in priority order
Postgres → S3 → local file, stopping at the first success; on success the
record `{id := "archive_" ++ timestamp, timestamp}` is prepended
(newest-first) to the in-memory index; if every backend fails, nothing is
recorded in the index. -/
theorem claim6_archive_priority (cfg : ArchiveCfg) (res : BackendResults)
    (ts : Nat) (archives : List ArchiveRec) :
    (cfg.usePostgres = true → res.pgOk = true →
        saveCanvasArchive cfg res ts archives
          = Except.ok (⟨archiveIdOf ts, ts⟩ :: archives,
              ArchiveBackend.postgres))
      ∧ ((cfg.usePostgres = false ∨ res.pgOk = false) →
          cfg.useS3 = true → res.s3Ok = true →
          saveCanvasArchive cfg res ts archives
            = Except.ok (⟨archiveIdOf ts, ts⟩ :: archives, ArchiveBackend.s3))
      ∧ ((cfg.usePostgres = false ∨ res.pgOk = false) →
          (cfg.useS3 = false ∨ res.s3Ok = false) → res.localOk = true →
          saveCanvasArchive cfg res ts archives
            = Except.ok (⟨archiveIdOf ts, ts⟩ :: archives,
                ArchiveBackend.localFile))
      ∧ ((cfg.usePostgres = false ∨ res.pgOk = false) →
          (cfg.useS3 = false ∨ res.s3Ok = false) → res.localOk = false →
          (∃ msg, saveCanvasArchive cfg res ts archives = Except.error msg)
            ∧ runSnapshotIndex cfg res ts archives = archives)
      ∧ (∀ l b, saveCanvasArchive cfg res ts archives = Except.ok (l, b) →
          l = ⟨archiveIdOf ts, ts⟩ :: archives) := by
  obtain ⟨up, us⟩ := cfg
  obtain ⟨pg, s3, lo⟩ := res
  cases up <;> cases us <;> cases pg <;> cases s3 <;> cases lo <;>
    simp [saveCanvasArchive, runSnapshotIndex]

theorem claim6_archive_priority_witness :
    saveCanvasArchive ⟨true, true⟩ ⟨false, true, false⟩ 1700000000000 []
        = Except.ok ([⟨archiveIdOf 1700000000000, 1700000000000⟩],
            ArchiveBackend.s3)
      ∧ runSnapshotIndex ⟨true, true⟩ ⟨false, false, false⟩ 1700000000000
          [⟨"archive_1", 1⟩] = [⟨"archive_1", 1⟩] :=
  ⟨(claim6_archive_priority ⟨true, true⟩ ⟨false, true, false⟩
      1700000000000 []).2.1 (Or.inr rfl) rfl rfl,
    ((claim6_archive_priority ⟨true, true⟩ ⟨false, false, false⟩
      1700000000000 [⟨"archive_1", 1⟩]).2.2.2.1 (Or.inr rfl) (Or.inr rfl)
      rfl).2⟩

/-- C8: `reset()` (from the canvas revision that carries it) clears every
cell to the background color with no owner and no timestamp and clears the
placement history; the color counters of the reset canvas are exactly
`{white: CANVAS_WIDTH * CANVAS_HEIGHT}` — the value the later revision's
constructor installs as `colorCounts`. -/
theorem claim8_reset_clears (c : LegacyCanvas) :
    (legacyReset c).recentPlacements = []
      ∧ (∀ x y : Nat, x < CANVAS_WIDTH → y < CANVAS_HEIGHT →
          getCell (legacyReset c).pixels x y
            = ⟨"white", none, none⟩)
      ∧ (∀ s, (gridColors (legacyReset c).pixels).count s
          = recGetD initCanvas.colorCounts s 0)
      ∧ (gridColors (legacyReset c).pixels).count "white"
          = CANVAS_WIDTH * CANVAS_HEIGHT := by
  refine ⟨rfl, ?_, ?_, ?_⟩
  · intro x y hx hy
    exact getCell_empty x y hx hy
  · intro s
    show (gridColors createEmptyCanvas).count s
      = recGetD [("white", CANVAS_WIDTH * CANVAS_HEIGHT)] s 0
    rw [gridColors_empty_count]
    by_cases hs : s = "white"
    · subst hs
      simp [recGetD, recGet]
    · simp [recGetD, recGet, hs, Ne.symm hs]
  · show (gridColors createEmptyCanvas).count "white"
      = CANVAS_WIDTH * CANVAS_HEIGHT
    rw [gridColors_empty_count]
    simp

theorem claim8_reset_clears_witness :
    getCell (legacyReset ⟨[], []⟩).pixels 0 0 = ⟨"white", none, none⟩ :=
  (claim8_reset_clears ⟨[], []⟩).2.1 0 0 (by decide) (by decide)

/-- C9 (amended): the recent-placement history never exceeds 1000 records
after any event trace from the fresh canvas; when a placement lands on a
full history of 1000 the oldest record is evicted (FIFO); and for every
`limit ≥ 1`, `getRecentPlacements limit` returns the most recent
`min limit length` records in insertion order (a suffix of the history);
`getRecentPlacements 0`, however, returns the *entire* history, because
`slice(-0)` is `slice(0)` in JavaScript. -/
theorem claim9_history_amended :
    (∀ evs : List Ev,
        (runC initCanvas evs).recentPlacements.length ≤ 1000)
      ∧ (∀ (c : Canvas) (x y : Int) (color botId : String) (now : Nat),
          ¬ outsideGrid x y → c.recentPlacements.length = 1000 →
          (setPixelMem c x y color botId now).2.recentPlacements
            = c.recentPlacements.tail
                ++ [(⟨x, y, color, botId, now⟩ : PixelPlacement)])
      ∧ (∀ (c : Canvas) (limit : Nat), 1 ≤ limit →
          (Canvas.getRecentPlacements c limit).length
              = min limit c.recentPlacements.length
            ∧ Canvas.getRecentPlacements c limit <:+ c.recentPlacements)
      ∧ (∀ c : Canvas, Canvas.getRecentPlacements c 0
          = c.recentPlacements) := by
  refine ⟨?_, ?_, ?_, ?_⟩
  · intro evs
    exact (canvasInv_run_init evs).2.2.2.2.2
  · intro c x y color botId now hb hlen
    simp only [setPixelMem, if_neg hb]
    have hgt : 1000 < (c.recentPlacements
        ++ [(⟨x, y, color, botId, now⟩ : PixelPlacement)]).length := by
      simp [hlen]
    rw [if_pos hgt]
    exact listTail_append_singleton c.recentPlacements _
      (by intro hnil; rw [hnil] at hlen; simp at hlen)
  · intro c limit hlim
    have hne : ¬ limit = 0 := by omega
    constructor
    · simp only [Canvas.getRecentPlacements, if_neg hne]
      rw [List.length_drop]
      omega
    · simp only [Canvas.getRecentPlacements, if_neg hne]
      exact List.drop_suffix _ _
  · intro c
    simp [Canvas.getRecentPlacements]

theorem claim9_history_amended_witness :
    (runC initCanvas []).recentPlacements.length ≤ 1000
      ∧ Canvas.getRecentPlacements initCanvas 5 <:+
          initCanvas.recentPlacements
      ∧ Canvas.getRecentPlacements initCanvas 0
          = initCanvas.recentPlacements :=
  ⟨claim9_history_amended.1 [],
    (claim9_history_amended.2.2.1 initCanvas 5 (by decide)).2,
    claim9_history_amended.2.2.2 initCanvas⟩

/-- C9 (counterexample to the claim as frozen): after one successful
placement the history holds one record, yet `getRecentPlacements 0`
returns that record rather than the `min 0 1 = 0` records the claim
specifies — JavaScript's `slice(-0)` returns the whole array. -/
theorem claim9_zero_limit_counterexample :
    (Canvas.getRecentPlacements
        (runC initCanvas [Ev.place 0 0 "red" "b1" 3]) 0).length
      ≠ min 0 (runC initCanvas
          [Ev.place 0 0 "red" "b1" 3]).recentPlacements.length := by
  decide

/-- C10: frame property of placement.  For every in-bounds
`setPixel (x,y,color,botId)` on a reachable canvas: the grid keeps its
dimensions (row count and every row's length), every cell at a coordinate
other than `(x,y)` is unchanged, and `colorCounts` is unchanged at every
color other than the overwritten cell's previous color and the newly
placed color. -/
theorem claim10_setPixel_frame (evs : List Ev) (x y : Int)
    (color botId : String) (now : Nat) (hin : ¬ outsideGrid x y) :
    (setPixelMem (runC initCanvas evs) x y color botId now).2.pixels.length
        = (runC initCanvas evs).pixels.length
      ∧ (∀ j : Nat,
          ((setPixelMem (runC initCanvas evs) x y color botId
              now).2.pixels.getD j []).length
            = ((runC initCanvas evs).pixels.getD j []).length)
      ∧ (∀ x' y' : Nat, ¬(x' = x.toNat ∧ y' = y.toNat) →
          getCell (setPixelMem (runC initCanvas evs) x y color botId
              now).2.pixels x' y'
            = getCell (runC initCanvas evs).pixels x' y')
      ∧ (∀ s : String,
          s ≠ (getCell (runC initCanvas evs).pixels x.toNat y.toNat).color →
          s ≠ color →
          recGetD (setPixelMem (runC initCanvas evs) x y color botId
              now).2.colorCounts s 0
            = recGetD (runC initCanvas evs).colorCounts s 0) := by
  have h := canvasInv_run_init evs
  obtain ⟨hx', hy'⟩ := inBounds_toNat x y hin
  have hmem : (getCell (runC initCanvas evs).pixels x.toNat y.toNat).color
      ∈ gridColors (runC initCanvas evs).pixels :=
    getCell_color_mem _ x.toNat y.toNat h.1 hx' hy'
  have hold : 1 ≤ recGetD (runC initCanvas evs).colorCounts
      (getCell (runC initCanvas evs).pixels x.toNat y.toNat).color 0 := by
    rw [h.2.2.1]
    have hne : (gridColors (runC initCanvas evs).pixels).count
        (getCell (runC initCanvas evs).pixels x.toNat y.toNat).color ≠ 0 :=
      fun h0 => (List.count_eq_zero.mp h0) hmem
    omega
  simp only [setPixelMem, if_neg hin]
  refine ⟨?_, ?_, ?_, ?_⟩
  · exact setCell_length _ _ _ _
  · intro j
    exact setCell_row_length _ _ _ j _
  · intro x' y' hne
    exact getCell_setCell_ne _ _ _ _ _ _ hne
  · intro s hsold hsnew
    have hb := bumpCounts_getD (runC initCanvas evs).colorCounts
      (getCell (runC initCanvas evs).pixels x.toNat y.toNat).color color
      hold s
    rw [if_neg (fun hh => hsold hh.symm), if_neg (fun hh => hsnew hh.symm)]
      at hb
    omega

theorem claim10_setPixel_frame_witness :
    getCell (setPixelMem (runC initCanvas []) 5 7 "teal" "b9" 42).2.pixels
        0 0
      = getCell (runC initCanvas []).pixels 0 0 :=
  (claim10_setPixel_frame [] 5 7 "teal" "b9" 42 (by decide)).2.2.1 0 0
    (by decide)

theorem claim7_schedule_drift_witness :
    schedAfter 500 [86400000, 3600000]
      = nextMidnightUtc 500
          + CYCLE_MS * ([86400000, 3600000] : List Nat).length
          + ([86400000, 3600000] : List Nat).sum :=
  (claim7_schedule_drift 500 [86400000, 3600000]).2.1
